import Mathlib

/-!
# Guardz: verification of the spec's claims against the source

This file shallowly embeds the core of the Guardz URL-aggregation service
(`internal/handlers/dynamic_handler.go`, the store providers under
`internal/lookup/`, and `internal/db/store.go`) and settles the frozen claims
C1..C10 about it.  Pure Go functions become Lean functions; the relevant parts
of the Go standard library (`net/url` parsing, `net.ParseIP`, `net.ParseCIDR`
and `IPNet.Contains`) and of the third-party resilience libraries
(`sony/gobreaker`, `avast/retry-go`) are modelled from their documented
semantics, since the repository code calls into them.  Machine integers are
Nat (all quantities involved are non-negative and no overflow is reachable);
fallible operations return `Option`/`Except`.
-/

set_option linter.unusedVariables false

namespace Guardz

/-! ## Small string/list utilities shared by the embeddings -/

/-- Split a char list at the first occurrence of `sep`; the separator is
dropped (Go's `split(s, sep, true)`).  If `sep` is absent the second component
is empty. -/
def cutAtChar (sep : Char) : List Char → List Char × List Char
  | [] => ([], [])
  | c :: rest =>
    if c = sep then ([], rest)
    else
      let r := cutAtChar sep rest
      (c :: r.1, r.2)

/-- Split a char list on every occurrence of `sep` (Go's `strings.Split`). -/
def splitOnChar (sep : Char) : List Char → List (List Char)
  | [] => [[]]
  | c :: rest =>
    match splitOnChar sep rest with
    | [] => [[c]]
    | g :: gs => if c = sep then [] :: g :: gs else (c :: g) :: gs

/-- The suffix of `cs` strictly after its last `'@'` (the whole list when no
`'@'` occurs); models Go's `parseAuthority` userinfo stripping. -/
def afterLastAt (cs : List Char) : List Char :=
  (cs.reverse.takeWhile (fun c => c ≠ '@')).reverse

/-- Boolean substring test on char lists (Go's `strings.Contains`). -/
def hasSub (pat : List Char) : List Char → Bool
  | [] => pat.isEmpty
  | a :: t => pat.isPrefixOf (a :: t) || hasSub pat t

/-! ## Model of Go `net/url` parsing (the fields `validateURL` consults)

`validateURL` in `dynamic_handler.go` reads only `parsedURL.Scheme` and
`parsedURL.Hostname()`, so the embedding keeps exactly those. -/

/-- Result of `url.Parse` restricted to the fields used by the handler.
`host` is the raw authority host (possibly with port / brackets), as in Go's
`URL.Host`. -/
structure GoURL where
  scheme : String
  host : String
  deriving DecidableEq

/-- Go `net/url.getScheme`: `orig` is the full input (returned unchanged when
no scheme is present), the second argument is the unread remainder, the third
the scheme characters read so far.  `none` models the
"missing protocol scheme" parse error. -/
def getSchemeGo (orig : List Char) : List Char → List Char → Option (String × List Char)
  | [], _ => some ("", orig)
  | c :: rest, acc =>
    if ('a' ≤ c ∧ c ≤ 'z') ∨ ('A' ≤ c ∧ c ≤ 'Z') then
      getSchemeGo orig rest (acc ++ [c])
    else if ('0' ≤ c ∧ c ≤ '9') ∨ c = '+' ∨ c = '-' ∨ c = '.' then
      if acc = [] then some ("", orig) else getSchemeGo orig rest (acc ++ [c])
    else if c = ':' then
      if acc = [] then none else some (String.mk acc, rest)
    else
      some ("", orig)

/-- ASCII lowercasing (Go lowercases the scheme after `getScheme`; scheme
characters are ASCII by construction). -/
def lowerStr (s : String) : String := String.mk (s.data.map Char.toLower)

/-- Model of Go `url.Parse` (with `viaRequest = false`), keeping scheme and
authority host: fragment is cut at the first `'#'`, the scheme is read and
lowercased, the query is cut at the first `'?'`, and an authority is parsed
after a leading `"//"`; a first path segment containing `':'` in a scheme-less
URL is a parse error, as in Go. -/
def goURLParse (s : String) : Option GoURL :=
  let noFrag := (cutAtChar '#' s.data).1
  match getSchemeGo noFrag noFrag [] with
  | none => none
  | some (scheme0, rest0) =>
    let scheme := lowerStr scheme0
    let rest := (cutAtChar '?' rest0).1
    if rest.head? = some '/' then
      if rest.take 2 = ['/', '/'] ∧ (scheme ≠ "" ∨ ¬ rest.take 3 = ['/', '/', '/']) then
        let authority := (rest.drop 2).takeWhile (fun c => c ≠ '/')
        some ⟨scheme, String.mk (afterLastAt authority)⟩
      else some ⟨scheme, ""⟩
    else
      if scheme ≠ "" then some ⟨scheme, ""⟩
      else
        let seg := rest.takeWhile (fun c => c ≠ '/')
        if seg.contains ':' then none else some ⟨scheme, ""⟩

/-- Go `net/url.validOptionalPort`: empty, or `':'` followed by decimal
digits only. -/
def validOptionalPort (cs : List Char) : Bool :=
  match cs with
  | [] => true
  | ':' :: ds => ds.all (fun c => '0' ≤ c ∧ c ≤ '9')
  | _ => false

/-- Go `net/url.splitHostPort` as used by `URL.Hostname()`: strip a valid
`:port` suffix (split at the last colon), then strip one matching pair of
square brackets. -/
def splitHostPortGo (host : List Char) : List Char :=
  let afterRev := host.reverse.takeWhile (fun c => c ≠ ':')
  let h1 :=
    if host.contains ':' ∧ validOptionalPort (':' :: afterRev.reverse) then
      host.take (host.length - afterRev.length - 1)
    else host
  if h1.head? = some '[' ∧ h1.getLast? = some ']' then (h1.drop 1).dropLast else h1

/-- Model of `URL.Hostname()`. -/
def hostnameOf (u : GoURL) : String := String.mk (splitHostPortGo u.host.data)

/-! ## Model of Go `net.ParseIP` / `net.ParseCIDR` / `IPNet.Contains`

IPs are byte lists: length 4 for IPv4 (the `To4` form produced by
`parseIPv4`), length 16 for IPv6. -/

/-- One IPv4 dotted-decimal field: 1–3 decimal digits, value ≤ 255, no
leading zero (Go rejects leading zeros in IP literals). -/
def v4Field (cs : List Char) : Option Nat :=
  if cs = [] then none
  else if ¬ cs.all (fun c => '0' ≤ c ∧ c ≤ '9') then none
  else if 3 < cs.length then none
  else if 1 < cs.length ∧ cs.head? = some '0' then none
  else
    let v := cs.foldl (fun a c => a * 10 + (c.toNat - '0'.toNat)) 0
    if 255 < v then none else some v

/-- Go `parseIPv4`: exactly four fields separated by `'.'`. -/
def parseIPv4 (s : String) : Option (List Nat) :=
  match splitOnChar '.' s.data with
  | [a, b, c, d] =>
    match v4Field a, v4Field b, v4Field c, v4Field d with
    | some a', some b', some c', some d' => some [a', b', c', d']
    | _, _, _, _ => none
  | _ => none

/-- Hex digit value. -/
def hexVal (c : Char) : Option Nat :=
  if '0' ≤ c ∧ c ≤ '9' then some (c.toNat - '0'.toNat)
  else if 'a' ≤ c ∧ c ≤ 'f' then some (c.toNat - 'a'.toNat + 10)
  else if 'A' ≤ c ∧ c ≤ 'F' then some (c.toNat - 'A'.toNat + 10)
  else none

/-- Go `xtoi`: read a non-empty hex-digit run and its value; values that
cannot fit a v6 group (or overflow Go's bound) are rejected by the caller. -/
def xtoiGo : List Char → Nat → Nat → Option (Nat × List Char)
  | [], acc, cnt => if cnt = 0 then none else some (acc, [])
  | c :: rest, acc, cnt =>
    match hexVal c with
    | none => if cnt = 0 then none else some (acc, c :: rest)
    | some v =>
      if 0x1000000 ≤ acc then none else xtoiGo rest (acc * 16 + v) (cnt + 1)

/-- Completion step of Go `parseIPv6`: expand a `::` ellipsis at byte
position `e` with zeros, or require exactly 16 filled bytes with no
ellipsis. -/
def v6Finish (ell : Option Nat) (acc : List Nat) : Option (List Nat) :=
  if acc.length = 16 then if ell.isSome then none else some acc
  else
    match ell with
    | none => none
    | some e => some (acc.take e ++ List.replicate (16 - acc.length) 0 ++ acc.drop e)

/-- Main loop of Go `parseIPv6`: at most 8 groups (`fuel`), each a hex group
or a trailing embedded IPv4; `ell` records the byte position of a `::`. -/
def v6Loop : Nat → List Char → Option Nat → List Nat → Option (List Nat)
  | fuel0, cs, ell, acc =>
    if 16 ≤ acc.length then if cs = [] then v6Finish ell acc else none
    else
      match fuel0 with
      | 0 => none
      | fuel + 1 =>
        match xtoiGo cs 0 0 with
        | none => none
        | some (n, rest) =>
          if 0xFFFF < n then none
          else if rest.head? = some '.' then
            if ell = none ∧ acc.length ≠ 12 then none
            else if 16 < acc.length + 4 then none
            else
              match parseIPv4 (String.mk cs) with
              | none => none
              | some b4 => v6Finish ell (acc ++ b4)
          else
            let acc2 := acc ++ [n / 256, n % 256]
            match rest with
            | [] => v6Finish ell acc2
            | [':'] => none
            | ':' :: ':' :: rest2 =>
              if ell.isSome then none
              else if rest2 = [] then v6Finish (some acc2.length) acc2
              else v6Loop fuel rest2 (some acc2.length) acc2
            | ':' :: rest2 => v6Loop fuel rest2 ell acc2
            | _ => none

/-- Go `parseIPv6` (no zone, as in `net.ParseIP`). -/
def parseIPv6 (s : String) : Option (List Nat) :=
  match s.data with
  | ':' :: ':' :: [] => some (List.replicate 16 0)
  | ':' :: ':' :: rest => v6Loop 8 rest (some 0) []
  | ':' :: _ => none
  | cs => v6Loop 8 cs none []

/-- Go `net.ParseIP`: the first `'.'` or `':'` encountered selects the
parser. -/
def goParseIP (s : String) : Option (List Nat) :=
  match s.data.find? (fun c => c = '.' ∨ c = ':') with
  | some '.' => parseIPv4 s
  | some ':' => parseIPv6 s
  | _ => none

/-- Go `IP.To4`: a 4-byte address, or the low 4 bytes of a 16-byte address
with the IPv4-mapped prefix `::ffff:`. -/
def ipTo4 (ip : List Nat) : Option (List Nat) :=
  if ip.length = 4 then some ip
  else if ip.length = 16 ∧ ip.take 12 = [0, 0, 0, 0, 0, 0, 0, 0, 0, 0, 255, 255] then
    some (ip.drop 12)
  else none

/-- Byte `i` of a CIDR mask with `ones` leading one-bits. -/
def maskByte (ones i : Nat) : Nat :=
  if 8 * (i + 1) ≤ ones then 255
  else if ones ≤ 8 * i then 0
  else 256 - 2 ^ (8 - (ones - 8 * i))

/-- Bytewise containment test of Go `IPNet.Contains` (`nn[i]&m[i] ==
ip[i]&m[i]` with an implicit length check). -/
def containsAux : List Nat → List Nat → List Nat → Bool
  | [], [], [] => true
  | n :: ns, m :: ms, b :: bs => (n &&& m == b &&& m) && containsAux ns ms bs
  | _, _, _ => false

/-- Go `IPNet.Contains`: the probe IP is normalised with `To4` first; a
length mismatch is a non-match. -/
def cidrContains (net : List Nat) (ones : Nat) (ip : List Nat) : Bool :=
  let ip4 := match ipTo4 ip with | some v => v | none => ip
  containsAux net ((List.range net.length).map (maskByte ones)) ip4

/-- The blocks of `isPrivateIP` in `dynamic_handler.go`, already in the form
`net.ParseCIDR` produces (masked network bytes plus prefix length), in source
order: 127.0.0.0/8, 10.0.0.0/8, 172.16.0.0/12, 192.168.0.0/16,
169.254.0.0/16, ::1/128, fe80::/10, fc00::/7. -/
def privateBlocks : List (List Nat × Nat) :=
  [([127, 0, 0, 0], 8),
   ([10, 0, 0, 0], 8),
   ([172, 16, 0, 0], 12),
   ([192, 168, 0, 0], 16),
   ([169, 254, 0, 0], 16),
   (List.replicate 15 0 ++ [1], 128),
   (254 :: 128 :: List.replicate 14 0, 10),
   (252 :: List.replicate 15 0, 7)]

/-- Function `isPrivateIP` from `dynamic_handler.go`. -/
def isPrivateIP (ip : List Nat) : Bool :=
  privateBlocks.any (fun b => cidrContains b.1 b.2 ip)

/-- Function `validateURL` from `dynamic_handler.go`: `none` means the URL is safe to
fetch, `some msg` carries the rejection reason. -/
def validateURL (urlStr : String) : Option String :=
  match goURLParse urlStr with
  | none => some "invalid URL format"
  | some u =>
    if u.scheme ≠ "http" ∧ u.scheme ≠ "https" then
      some ("unsupported scheme: " ++ u.scheme ++ " (only http and https are allowed)")
    else
      let host := hostnameOf u
      if host = "localhost" ∨ host = "127.0.0.1" ∨ host = "::1" then
        some "access to localhost is not allowed"
      else
        match goParseIP host with
        | some ip =>
          if isPrivateIP ip then some ("access to private IP " ++ host ++ " is not allowed")
          else none
        | none => none

/-! ## Model of the fetch pipeline of `handleGetPath` (`dynamic_handler.go`)

The network is abstracted as a function from URL to server behaviour; each
per-URL goroutine of `handleGetPath` becomes the pure function `fetchItem`,
and the channel/`results[result.index]` collection becomes `collectByIndex`
applied to an arbitrary completion-order permutation of the tagged results. -/

/-- What the server at a URL answers to one GET. -/
inductive ServerResp where
  | redirect (loc : String)
  | ok (status : Nat) (contentType : String) (body : List Nat)
  | netErr (msg : String)
  deriving DecidableEq

/-- The final response of a successful redirect chain: `finalURL` is
`resp.Request.URL` of the last request. -/
structure FinalResp where
  finalURL : String
  status : Nat
  contentType : String
  body : List Nat
  deriving DecidableEq

/-- Constant `maxRedirects` of the client in `handleGetPath` (`len(via) >= 10`). -/
def maxRedirects : Nat := 10

/-- Outcome of issuing one GET inside the redirect loop of `http.Client.Do`:
either the loop is over (final response, network error, or the
`CheckRedirect` rejection once `len(via)` would reach 10), or the client
follows to the redirect target. -/
inductive StepResult where
  | done (r : Except String FinalResp)
  | follow (loc : String)

/-- One request of the redirect loop: `made` counts requests already made
(the length of Go's `via`).  On a redirect, `CheckRedirect` rejects the
follow-up once 10 requests have been made, wrapped as a `url.Error` whose
text ends in "too many redirects". -/
def redirectStep (world : String → ServerResp) (url : String) (made : Nat) : StepResult :=
  match world url with
  | .netErr e => .done (.error ("Get \x22" ++ url ++ "\x22: " ++ e))
  | .ok st ct body => .done (.ok ⟨url, st, ct, body⟩)
  | .redirect loc =>
    if maxRedirects ≤ made + 1 then
      .done (.error ("Get \x22" ++ loc ++ "\x22: too many redirects"))
    else .follow loc

/-- Go `http.Client.Do` with the handler's `CheckRedirect` policy: iterate
`redirectStep`; the second component counts requests actually issued.
`fuel` is a recursion bound only: the `CheckRedirect` rejection keeps every
run within `maxRedirects` requests, so starting from `made = 0` with
`fuel = maxRedirects` the fuel case is unreachable. -/
def followRedirects (world : String → ServerResp) : Nat → String → Nat → Except String FinalResp × Nat
  | 0, url, made =>
    match redirectStep world url made with
    | .done r => (r, made + 1)
    | .follow _ => (.error "client fuel exhausted", made + 1)
  | fuel + 1, url, made =>
    match redirectStep world url made with
    | .done r => (r, made + 1)
    | .follow loc => followRedirects world fuel loc (made + 1)

/-- One client call, as issued by a goroutine of `handleGetPath`. -/
def clientDo (world : String → ServerResp) (url : String) : Except String FinalResp × Nat :=
  followRedirects world maxRedirects url 0

/-- The value `1 << 20`, the body size cap of `io.LimitReader` in `handleGetPath`. -/
def maxBodyBytes : Nat := 1 <<< 20

/-- Content-type classification of `handleGetPath`: `text/` prefix, or a
`json` or `xml` substring, is kept as text; everything else is
base64-encoded. -/
def isTextual (ct : String) : Bool :=
  "text/".data.isPrefixOf ct.data || hasSub "json".data ct.data || hasSub "xml".data ct.data

/-- One entry of the `results` slice of `handleGetPath` (the per-URL result
map).  `content` holds the body bytes after the 1 MiB cap (base64 encoding is
an injective retagging recorded in `contentIsBase64`); `netRequests` counts
the HTTP requests the item issued (0 = the network was never touched). -/
structure FetchResult where
  url : String
  errMsg : Option String := none
  warning : Bool := false
  redirected : Bool := false
  finalURL : Option String := none
  statusCode : Option Nat := none
  contentType : Option String := none
  content : Option (List Nat) := none
  contentIsBase64 : Bool := false
  netRequests : Nat := 0
  deriving DecidableEq

/-- The body of one goroutine of `handleGetPath` (lines 246–332): validate,
fetch with the redirect-limited client, read the body through the 1 MiB
limited reader, set the truncation warning when exactly the cap was read,
record redirect information and classify the content. -/
def fetchItem (world : String → ServerResp) (url : String) : FetchResult :=
  match validateURL url with
  | some e => { url := url, errMsg := some e }
  | none =>
    match clientDo world url with
    | (.error e, n) => { url := url, errMsg := some e, netRequests := n }
    | (.ok fin, n) =>
      let body := fin.body.take maxBodyBytes
      { url := url
        errMsg := none
        warning := body.length == maxBodyBytes
        redirected := fin.finalURL ≠ url
        finalURL := if fin.finalURL ≠ url then some fin.finalURL else none
        statusCode := some fin.status
        contentType := some fin.contentType
        content := some body
        contentIsBase64 := ! isTextual fin.contentType
        netRequests := n }

/-- The collection loop of `handleGetPath`: `results := make([]..., n)` and
`results[result.index] = result.result` for every message drained from the
channel, in arrival order.  A slot never written stays `none` (Go: nil). -/
def collectByIndex (n : Nat) (msgs : List (Nat × FetchResult)) : List (Option FetchResult) :=
  msgs.foldl (fun acc m => acc.set m.1 (some m.2)) (List.replicate n none)

/-! ## Model of `handlePostPath` (`dynamic_handler.go`, lines 359–417)

The request body is taken already decoded (a list of URL strings); the store
is the in-memory provider, whose `StoreURLsForPath` always succeeds, so the
500 branch is unreachable and elided.  `storedCall` records the URL list
passed to `StoreURLsForPath`, `none` when the store was never called. -/

/-- Observable outcome of one POST request. -/
structure PostOutcome where
  status : Nat
  storedCall : Option (List String)
  invalidURLs : List String
  warningSet : Bool
  deriving DecidableEq

/-- Handler `handlePostPath`: empty list → 400; URLs are partitioned by `validateURL`
preserving order; all invalid → 400 without touching the store; otherwise
only the valid URLs are stored and the response is 201 Created, with a
warning listing the rejected URLs when any were. -/
def handlePostPath (urls : List String) : PostOutcome :=
  if urls.isEmpty then ⟨400, none, [], false⟩
  else
    let valid := urls.filter (fun u => validateURL u = none)
    let invalid := urls.filter (fun u => ¬ validateURL u = none)
    if valid.isEmpty then ⟨400, none, invalid, false⟩
    else ⟨201, some valid, invalid, ! invalid.isEmpty⟩

/-! ## Data model (`internal/db_model/model.go`) -/

/-- Record type `db_model.URLRecord`. -/
structure URLRecord where
  id : Nat
  pathID : Nat
  url : String
  deriving DecidableEq

/-! ## The in-memory provider (`in_memory_provider.go`)

Go maps become association lists with first-match lookup; a map update is a
prepend (the newest binding shadows older ones), which models
`m.urls[id] = ...` replacing the previous value. -/

/-- State of `InMemoryProvider`. -/
structure InMemoryProvider where
  paths : List (String × Nat)
  urls : List (Nat × List String)
  nextID : Nat
  deriving DecidableEq

/-- Constructor `NewInMemoryProvider`. -/
def newInMemoryProvider : InMemoryProvider := ⟨[], [], 1⟩

/-- First-match association lookup (Go map read). -/
def assocFind {α : Type} [DecidableEq α] {β : Type} (k : α) : List (α × β) → Option β
  | [] => none
  | p :: rest => if p.1 = k then some p.2 else assocFind k rest

/-- Method `InMemoryProvider.StoreURLsForPath`: assign a fresh id on first sight of
the path, then overwrite the URL list for that id ("overwrite for
idempotency").  Always succeeds (`nil` error elided). -/
def InMemoryProvider.storeURLsForPath (m : InMemoryProvider) (path : String) (urls : List String) : InMemoryProvider :=
  match assocFind path m.paths with
  | some id => { m with urls := (id, urls) :: m.urls }
  | none =>
    { paths := (path, m.nextID) :: m.paths
      urls := (m.nextID, urls) :: m.urls
      nextID := m.nextID + 1 }

/-- Record list built by `GetURLsByPath`'s loop: `ID = i + 1`, `PathID = id`. -/
def mkMemRecords (id : Nat) (urls : List String) : List URLRecord :=
  urls.enum.map (fun p => ⟨p.1 + 1, id, p.2⟩)

/-- Method `InMemoryProvider.GetURLsByPath`: unknown path returns `(nil, nil)`;
otherwise the snapshot of the stored list, re-indexed.  The second component
is the Go error, always `none`. -/
def InMemoryProvider.getURLsByPath (m : InMemoryProvider) (path : String) : List URLRecord × Option String :=
  match assocFind path m.paths with
  | none => ([], none)
  | some id => (mkMemRecords id ((assocFind id m.urls).getD []), none)

/-! ## The relational backend state shared by the durable providers

Two relations, `paths(id, path)` and `urls(id, path_id, url)`, with serial
ids handed out by monotone counters; rows are appended in insertion order, so
the `urls` list is always in ascending-id order for states reachable from the
schema's serial sequences (the `DbWF` invariant below). -/

/-- Relational store state. -/
structure DbState where
  paths : List (Nat × String)
  urls : List (Nat × Nat × String)
  nextPathID : Nat
  nextURLID : Nat
  deriving DecidableEq

/-- The empty database (fresh schema; serial sequences start at 1). -/
def dbEmpty : DbState := ⟨[], [], 1, 1⟩

/-- Find the id of the first `paths` row whose path string is `p`. -/
def assocFindSnd (p : String) : List (Nat × String) → Option Nat
  | [] => none
  | r :: rest => if r.2 = p then some r.1 else assocFindSnd p rest

/-- The upsert `INSERT ... ON CONFLICT (path) DO UPDATE ... RETURNING id`: return the
existing row's id, or insert a row with the next serial id. -/
def dbUpsertPath (st : DbState) (path : String) : Nat × DbState :=
  match assocFindSnd path st.paths with
  | some id => (id, st)
  | none =>
    (st.nextPathID,
     { st with paths := st.paths ++ [(st.nextPathID, path)], nextPathID := st.nextPathID + 1 })

/-- Rows appended by a bulk insert of `urls` under `pathID`, with serial ids
starting at `firstID` (one `SERIAL` id per inserted row, in order). -/
def mkDbRows (firstID pathID : Nat) : List String → List (Nat × Nat × String)
  | [] => []
  | u :: us => (firstID, pathID, u) :: mkDbRows (firstID + 1) pathID us

/-- The transaction body of `PostgresProvider.StoreURLsForPath`
(`internal/lookup/postgress_provider.go`, lines 75–143), successful path:
upsert the path, bulk-insert the new URL rows, commit.  Note: this version
does NOT delete the path's prior URL rows. -/
def pqStoreTx (st : DbState) (path : String) (urls : List String) : DbState :=
  let r := dbUpsertPath st path
  { r.2 with urls := r.2.urls ++ mkDbRows r.2.nextURLID r.1 urls
             nextURLID := r.2.nextURLID + urls.length }

/-- The join condition of the read query: the `urls` row `r` joins some
`paths` row with `id = r.path_id` and the requested path string. -/
def rowMatches (paths : List (Nat × String)) (path : String) (r : Nat × Nat × String) : Bool :=
  paths.any fun pr => pr.1 = r.2.1 ∧ pr.2 = path

/-- The SQL of `getURLsByPath` / `db.GetURLsByPath`: join `urls` to `paths`
on `path_id = id` filtered by the path string, `ORDER BY u.id ASC`. -/
def dbSelectURLs (st : DbState) (path : String) : List URLRecord :=
  (((st.urls.filter (rowMatches st.paths path)).mergeSort
      (fun a b => a.1 ≤ b.1)).map (fun r => ⟨r.1, r.2.1, r.2.2⟩))

/-- Function `db.GetURLsByPath` (`internal/db/store.go`) with a healthy backend: the
row set and a `nil` error; an unknown path yields no rows, not an error. -/
def dbGetURLsByPath (st : DbState) (path : String) : List URLRecord × Option String :=
  (dbSelectURLs st path, none)

/-! ## The GORM durable provider (`internal/lookup/postgres/postgress_provider.go`)

The backend health is explicit: `healthy` runs the query, `down` makes every
query return a driver error. -/

/-- Backend health for the GORM provider model. -/
inductive DbHealth where
  | healthy
  | down (msg : String)
  deriving DecidableEq

/-- Method `StoreURLsForPath` of the GORM provider, successful path: `FirstOrCreate`
the path row, DELETE the path's prior URL rows ("Remove old URLs for
idempotency"), then create the new rows with fresh serial ids. -/
def gormStoreURLsForPath (st : DbState) (path : String) (urls : List String) : DbState :=
  let r := dbUpsertPath st path
  { r.2 with
      urls := r.2.urls.filter (fun row => ¬ row.2.1 = r.1) ++ mkDbRows r.2.nextURLID r.1 urls
      nextURLID := r.2.nextURLID + urls.length }

/-- Method `GetURLsByPath` of the GORM provider: if `First` on the path returns ANY
error — record-not-found or a backend failure alike — the code returns
`(nil, nil)` ("Not found is not an error"); otherwise the path's URL rows are
returned. -/
def gormGetURLsByPath (st : DbState) (health : DbHealth) (path : String) : List URLRecord × Option String :=
  match health with
  | .down _ => ([], none)
  | .healthy =>
    match assocFindSnd path st.paths with
    | none => ([], none)
    | some pid =>
      ((st.urls.filter (fun r => r.2.1 = pid)).map (fun r => ⟨r.1, r.2.1, r.2.2⟩), none)

/-! ## `sony/gobreaker` and `avast/retry-go` models
(`internal/lookup/postgress_provider.go`)

Settings from `NewPostgresProvider`: `MaxRequests: 5`, `Interval: 60s`,
`Timeout: 10s`, `ReadyToTrip: counts.ConsecutiveFailures > 3`.  Time is Nat
milliseconds; `expiry = 0` models Go's zero time. -/

/-- States of `gobreaker.State`. -/
inductive CBState where
  | closed
  | opened
  | halfOpen
  deriving DecidableEq

/-- Counters of `gobreaker.Counts`. -/
structure CBCounts where
  requests : Nat
  totalSuccesses : Nat
  totalFailures : Nat
  consecutiveSuccesses : Nat
  consecutiveFailures : Nat
  deriving DecidableEq

def CBCounts.clear : CBCounts := ⟨0, 0, 0, 0, 0⟩

def CBCounts.onRequest (c : CBCounts) : CBCounts := { c with requests := c.requests + 1 }

def CBCounts.onSuccess (c : CBCounts) : CBCounts :=
  { c with totalSuccesses := c.totalSuccesses + 1
           consecutiveSuccesses := c.consecutiveSuccesses + 1
           consecutiveFailures := 0 }

def CBCounts.onFailure (c : CBCounts) : CBCounts :=
  { c with totalFailures := c.totalFailures + 1
           consecutiveFailures := c.consecutiveFailures + 1
           consecutiveSuccesses := 0 }

/-- Dynamic state of `gobreaker.CircuitBreaker`. -/
structure CircuitBreaker where
  state : CBState
  counts : CBCounts
  expiry : Nat
  generation : Nat
  deriving DecidableEq

def cbMaxRequests : Nat := 5
def cbInterval : Nat := 60000
def cbTimeout : Nat := 10000

/-- Predicate `ReadyToTrip` from `NewPostgresProvider`: `ConsecutiveFailures > 3`. -/
def readyToTrip (c : CBCounts) : Bool := 3 < c.consecutiveFailures

/-- Transition `toNewGeneration`: bump the generation, clear the counts, set the expiry
from the current state (closed: interval rollover; open: cooldown;
half-open: zero). -/
def toNewGeneration (cb : CircuitBreaker) (now : Nat) : CircuitBreaker :=
  { cb with
      generation := cb.generation + 1
      counts := CBCounts.clear
      expiry :=
        match cb.state with
        | .closed => if cbInterval = 0 then 0 else now + cbInterval
        | .opened => now + cbTimeout
        | .halfOpen => 0 }

/-- Transition `setState`. -/
def setCBState (cb : CircuitBreaker) (s : CBState) (now : Nat) : CircuitBreaker :=
  toNewGeneration { cb with state := s } now

/-- Transition `currentState`: roll a closed breaker into a new counting generation when
its interval expired, and open → half-open strictly after the cooldown
(`cb.expiry.Before(now)`). -/
def currentStateUpd (cb : CircuitBreaker) (now : Nat) : CircuitBreaker :=
  match cb.state with
  | .closed => if cb.expiry ≠ 0 ∧ cb.expiry < now then toNewGeneration cb now else cb
  | .opened => if cb.expiry < now then setCBState cb .halfOpen now else cb
  | .halfOpen => cb

/-- Constructor `gobreaker.NewCircuitBreaker` at creation time `t0`. -/
def newCircuitBreaker (t0 : Nat) : CircuitBreaker :=
  toNewGeneration ⟨.closed, CBCounts.clear, 0, 0⟩ t0

def errOpenState : String := "circuit breaker is open"
def errTooManyRequests : String := "too many requests"

/-- The `onSuccess`/`onFailure` dispatch of `afterRequest`. -/
def cbOnResult (cb : CircuitBreaker) (now : Nat) (success : Bool) : CircuitBreaker :=
  if success then
    match cb.state with
    | .closed => { cb with counts := cb.counts.onSuccess }
    | .halfOpen =>
      let cb := { cb with counts := cb.counts.onSuccess }
      if cbMaxRequests ≤ cb.counts.consecutiveSuccesses then setCBState cb .closed now else cb
    | .opened => cb
  else
    match cb.state with
    | .closed =>
      let cb := { cb with counts := cb.counts.onFailure }
      if readyToTrip cb.counts then setCBState cb .opened now else cb
    | .halfOpen => setCBState cb .opened now
    | .opened => cb

/-- The through path of `Execute`: count the request, run it, and apply
`afterRequest` (with its generation check) to the outcome. -/
def cbRun {α : Type} (cb : CircuitBreaker) (now : Nat) (req : Except String α) :
    CircuitBreaker × Except String α × Bool :=
  let gen := cb.generation
  let cb2 := currentStateUpd { cb with counts := cb.counts.onRequest } now
  if cb2.generation ≠ gen then (cb2, req, true)
  else
    match req with
    | .ok a => (cbOnResult cb2 now true, .ok a, true)
    | .error e => (cbOnResult cb2 now false, .error e, true)

/-- Method `CircuitBreaker.Execute` on a request whose outcome is `req`; the third
component records whether the backend request was actually issued (`false`
for the fail-fast open / too-many-requests paths). -/
def cbExecute {α : Type} (cb : CircuitBreaker) (now : Nat) (req : Except String α) :
    CircuitBreaker × Except String α × Bool :=
  let cb1 := currentStateUpd cb now
  match cb1.state with
  | .opened => (cb1, .error errOpenState, false)
  | .halfOpen =>
    if cbMaxRequests ≤ cb1.counts.requests then (cb1, .error errTooManyRequests, false)
    else cbRun cb1 now req
  | .closed => cbRun cb1 now req

/-- Model of `retry.Do` with `Attempts(3)` around `cb.Execute`: one attempt per entry
of `times` (the clock at that attempt), stopping at the first success.
Returns the breaker, the final outcome, and the number of backend requests
actually issued across all attempts. -/
def retryDoCB {α : Type} (backend : Except String α) : CircuitBreaker → List Nat →
    CircuitBreaker × Except String α × Nat
  | cb, [] => (cb, .error "retry: no attempts", 0)
  | cb, [t] =>
    let r := cbExecute cb t backend
    (r.1, r.2.1, if r.2.2 then 1 else 0)
  | cb, t :: t2 :: ts =>
    let r := cbExecute cb t backend
    match r.2.1 with
    | .ok a => (r.1, .ok a, if r.2.2 then 1 else 0)
    | .error _ =>
      let rec2 := retryDoCB backend r.1 (t2 :: ts)
      (rec2.1, rec2.2.1, (if r.2.2 then 1 else 0) + rec2.2.2)

/-- Method `PostgresProvider.StoreURLsForPath` (lib/pq version) resilience shape:
retry around the breaker around one transaction attempt whose outcome is
`backend`.  Returns the breaker, the call's error (`none` = success) and the
number of backend attempts. -/
def pqStoreCall (cb : CircuitBreaker) (times : List Nat) (backend : Except String Unit) :
    CircuitBreaker × Option String × Nat :=
  let r := retryDoCB backend cb times
  match r.2.1 with
  | .ok _ => (r.1, none, r.2.2)
  | .error e => (r.1, some e, r.2.2)

/-- Method `PostgresProvider.GetURLsByPath` (lib/pq version): retry around the
breaker around one query attempt; on failure the record list is `nil` and the
error is surfaced, never an empty success. -/
def pqGetCall (cb : CircuitBreaker) (times : List Nat) (backend : Except String (List URLRecord)) :
    CircuitBreaker × (Option (List URLRecord) × Option String) × Nat :=
  let r := retryDoCB backend cb times
  match r.2.1 with
  | .ok recs => (r.1, (some recs, none), r.2.2)
  | .error e => (r.1, (none, some e), r.2.2)

/-! ## Spec-side definitions and demonstration fixtures -/

/-- The blocked address ranges exactly as the spec names them (refinement
side, written from the spec's words, to be compared with the source-derived
`isPrivateIP`): loopback 127.0.0.0/8 and ::1, link-local 169.254.0.0/16 and
fe80::/10, private 10.0.0.0/8, 172.16.0.0/12 and 192.168.0.0/16, and
unique-local fc00::/7.  A /n prefix constrains the first n bits. -/
def specBlockedIP (ip : List Nat) : Prop :=
  (∃ b c d, ip = [127, b, c, d]) ∨
  (∃ b c d, ip = [10, b, c, d]) ∨
  (∃ b c d, ip = [172, b, c, d] ∧ b &&& 240 = 16) ∨
  (∃ c d, ip = [192, 168, c, d]) ∨
  (∃ c d, ip = [169, 254, c, d]) ∨
  (ip = List.replicate 15 0 ++ [1]) ∨
  (∃ b rest, ip = 254 :: b :: rest ∧ rest.length = 14 ∧ b &&& 192 = 128) ∨
  (∃ b rest, ip = b :: rest ∧ rest.length = 15 ∧ b &&& 254 = 252)

/-- A server that answers every URL with a redirect (an unbounded redirect
chain). -/
def loopWorld : String → ServerResp := fun _ => .redirect "http://198.51.100.7/loop"

/-- A server with one healthy URL; every other URL redirects forever. -/
def mixedWorld : String → ServerResp := fun u =>
  if u = "http://198.51.100.9/ok" then .ok 200 "text/plain" [104, 105]
  else .redirect "http://198.51.100.7/loop"

/-- A two-URL world for the ordering demonstration (the "slow" first URL and
the "fast" second one; speed is irrelevant to the pure results, completion
order enters through the message permutation). -/
def slowFastWorld : String → ServerResp := fun u =>
  if u = "http://203.0.113.1/slow" then .ok 200 "text/plain" [115, 108, 111, 119]
  else .ok 200 "text/plain" [102, 97, 115, 116]

/-- The provider's breaker at creation (clock 0). -/
def cbDemo0 : CircuitBreaker := newCircuitBreaker 0

/-- First `Store` call against a failing backend: three attempts at times
1, 2, 3 ms. -/
def storeFail1 : CircuitBreaker × Option String × Nat :=
  pqStoreCall cbDemo0 [1, 2, 3] (.error "connection refused")

/-- Second `Store` call against the failing backend: attempts at 4, 5, 6 ms;
the attempt at 4 is the fourth consecutive backend failure. -/
def storeFail2 : CircuitBreaker × Option String × Nat :=
  pqStoreCall storeFail1.1 [4, 5, 6] (.error "connection refused")

/-- The breaker after the four consecutive backend failures. -/
def cbOpen4 : CircuitBreaker := storeFail2.1

/-- Invariant of every `DbState` reachable through the serial-id schema:
`urls` rows are in strictly ascending id order and both counters dominate the
ids already used (what `SERIAL PRIMARY KEY` guarantees). -/
structure DbWF (st : DbState) : Prop where
  urlsSorted : st.urls.Pairwise (fun a b => a.1 < b.1)
  urlIdsLt : ∀ r ∈ st.urls, r.1 < st.nextURLID
  pathRefsLt : ∀ r ∈ st.urls, r.2.1 < st.nextPathID
  pathIdsLt : ∀ pr ∈ st.paths, pr.1 < st.nextPathID

/-! ## Helper lemmas -/

theorem mkMemRecords_map_url (id : Nat) (L : List String) :
    (mkMemRecords id L).map URLRecord.url = L := by
  simp only [mkMemRecords, List.map_map, List.enum_eq_enumFrom]
  have h := List.enumFrom_map_snd 0 L
  simp only [Function.comp_def]
  exact h

theorem mkDbRows_map_url (f id : Nat) (L : List String) :
    (mkDbRows f id L).map (fun r => r.2.2) = L := by
  induction L generalizing f with
  | nil => rfl
  | cons u us ih => simp [mkDbRows, ih]

theorem mkDbRows_pathID (f id : Nat) (L : List String) :
    ∀ r ∈ mkDbRows f id L, r.2.1 = id := by
  induction L generalizing f with
  | nil => intro r hr; cases hr
  | cons u us ih =>
    intro r hr
    rcases List.mem_cons.mp hr with hr | hr
    · subst hr; rfl
    · exact ih (f + 1) r hr

theorem mkDbRows_id_bounds (f id : Nat) (L : List String) :
    ∀ r ∈ mkDbRows f id L, f ≤ r.1 ∧ r.1 < f + L.length := by
  induction L generalizing f with
  | nil => intro r hr; cases hr
  | cons u us ih =>
    intro r hr
    rcases List.mem_cons.mp hr with hr | hr
    · subst hr
      simp only [List.length_cons]
      omega
    · have h2 := ih (f + 1) r hr
      simp only [List.length_cons]
      omega

theorem mkDbRows_sorted (f id : Nat) (L : List String) :
    (mkDbRows f id L).Pairwise (fun a b => a.1 < b.1) := by
  induction L generalizing f with
  | nil => exact List.Pairwise.nil
  | cons u us ih =>
    refine List.Pairwise.cons ?_ (ih (f + 1))
    intro r hr
    have hb := mkDbRows_id_bounds (f + 1) id us r hr
    show f < r.1
    omega

theorem assocFindSnd_eq_none {p : String} :
    ∀ {l : List (Nat × String)}, (∀ r ∈ l, r.2 ≠ p) → assocFindSnd p l = none := by
  intro l
  induction l with
  | nil => intro h; rfl
  | cons r rest ih =>
    intro h
    simp only [assocFindSnd]
    rw [if_neg (h r (by simp))]
    exact ih fun x hx => h x (by simp [hx])

theorem assocFindSnd_mem {p : String} :
    ∀ {l : List (Nat × String)} {id : Nat}, assocFindSnd p l = some id → (id, p) ∈ l := by
  intro l
  induction l with
  | nil => intro id h; cases h
  | cons r rest ih =>
    intro id h
    simp only [assocFindSnd] at h
    by_cases hr : r.2 = p
    · rw [if_pos hr] at h
      cases h
      subst hr
      exact List.mem_cons_self r rest
    · rw [if_neg hr] at h
      exact List.mem_cons_of_mem _ (ih h)

theorem assocFindSnd_append_right {p : String} :
    ∀ {l₁ l₂ : List (Nat × String)}, assocFindSnd p l₁ = none →
      assocFindSnd p (l₁ ++ l₂) = assocFindSnd p l₂ := by
  intro l₁
  induction l₁ with
  | nil => intro l₂ h; rfl
  | cons r rest ih =>
    intro l₂ h
    simp only [assocFindSnd] at h ⊢
    by_cases hr : r.2 = p
    · rw [if_pos hr] at h; cases h
    · rw [if_neg hr] at h ⊢
      exact ih h

theorem mergeSort_of_id_sorted {l : List (Nat × Nat × String)}
    (h : l.Pairwise (fun a b => a.1 < b.1)) :
    l.mergeSort (fun a b => a.1 ≤ b.1) = l := by
  apply List.mergeSort_of_sorted
  exact h.imp (fun hab => by simpa using Nat.le_of_lt hab)

/-! ## C4 — body truncation at 1 MiB -/

/-- C4: a fetched URL whose server returns a 2 MiB body yields a result whose
content is exactly the 1 MiB prefix read through the limited reader, carries
the truncation warning, and is otherwise a success: no error is set and the
status code is recorded. -/
theorem c4_truncation_at_1mib (world : String → ServerResp) (url : String)
    (status : Nat) (ct : String) (body : List Nat)
    (hval : validateURL url = none) (hw : world url = .ok status ct body)
    (hlen : body.length = 2 * maxBodyBytes) :
    (fetchItem world url).errMsg = none ∧
    (fetchItem world url).warning = true ∧
    (fetchItem world url).content = some (body.take maxBodyBytes) ∧
    (fetchItem world url).content.map List.length = some maxBodyBytes ∧
    (fetchItem world url).statusCode = some status := by
  have hc : clientDo world url = (.ok ⟨url, status, ct, body⟩, 1) := by
    simp [clientDo, followRedirects, redirectStep, hw]
  have htake : (body.take maxBodyBytes).length = maxBodyBytes := by
    rw [List.length_take, hlen]; omega
  simp [fetchItem, hval, hc, htake]

/-- Witness for C4 at a concrete world serving a 2 MiB body. -/
theorem c4_truncation_at_1mib_witness :
    (fetchItem (fun _ => .ok 200 "text/plain" (List.replicate (2 * maxBodyBytes) 0)) "https://example.com").errMsg = none ∧
    (fetchItem (fun _ => .ok 200 "text/plain" (List.replicate (2 * maxBodyBytes) 0)) "https://example.com").warning = true ∧
    (fetchItem (fun _ => .ok 200 "text/plain" (List.replicate (2 * maxBodyBytes) 0)) "https://example.com").content
      = some ((List.replicate (2 * maxBodyBytes) 0).take maxBodyBytes) ∧
    (fetchItem (fun _ => .ok 200 "text/plain" (List.replicate (2 * maxBodyBytes) 0)) "https://example.com").content.map List.length
      = some maxBodyBytes ∧
    (fetchItem (fun _ => .ok 200 "text/plain" (List.replicate (2 * maxBodyBytes) 0)) "https://example.com").statusCode = some 200 :=
  c4_truncation_at_1mib _ _ 200 "text/plain" _ (by decide) rfl (by simp)

/-! ## C10 — the warning fires exactly at the cap -/

/-- C10: the truncation warning is attached exactly when the number of bytes
read equals the 1 MiB cap; hence a body of exactly 1 MiB — not truncated at
all — still carries the warning, and any shorter body never does. -/
theorem c10_warning_iff_cap (world : String → ServerResp) (url : String)
    (status : Nat) (ct : String) (body : List Nat)
    (hval : validateURL url = none) (hw : world url = .ok status ct body) :
    ((fetchItem world url).warning = true ↔ maxBodyBytes ≤ body.length) ∧
    (body.length = maxBodyBytes → (fetchItem world url).warning = true) ∧
    (body.length < maxBodyBytes → (fetchItem world url).warning = false) := by
  have hc : clientDo world url = (.ok ⟨url, status, ct, body⟩, 1) := by
    simp [clientDo, followRedirects, redirectStep, hw]
  have hiff : (fetchItem world url).warning = true ↔ maxBodyBytes ≤ body.length := by
    simp only [fetchItem, hval, hc, List.length_take, beq_iff_eq]
    omega
  refine ⟨hiff, fun h => hiff.mpr (by omega), fun h => ?_⟩
  cases hb : (fetchItem world url).warning with
  | false => rfl
  | true => exact absurd (hiff.mp hb) (by omega)

/-- Witness for C10 at a body of exactly 1 MiB: the warning is present even
though nothing was cut off. -/
theorem c10_warning_iff_cap_witness :
    (fetchItem (fun _ => .ok 200 "text/plain" (List.replicate maxBodyBytes 1)) "https://example.com").warning = true :=
  ((c10_warning_iff_cap _ _ 200 "text/plain" _ (by decide) rfl).2.1 (by simp))

/-! ## C7 — unknown path is an empty result, not an error -/

/-- C7: looking up a never-stored path returns an empty record list and a nil
error, for the in-memory provider, for the relational `GetURLsByPath` query,
and for the GORM provider. -/
theorem c7_unknown_path_empty (m : InMemoryProvider) (st : DbState) (p : String)
    (hm : assocFind p m.paths = none) (hdb : ∀ pr ∈ st.paths, pr.2 ≠ p) :
    m.getURLsByPath p = ([], none) ∧
    dbGetURLsByPath st p = ([], none) ∧
    gormGetURLsByPath st .healthy p = ([], none) := by
  refine ⟨?_, ?_, ?_⟩
  · simp [InMemoryProvider.getURLsByPath, hm]
  · have hfil : st.urls.filter (rowMatches st.paths p) = [] := by
      rw [List.filter_eq_nil_iff]
      intro r hr
      simp only [rowMatches, List.any_eq_true, Bool.and_eq_true, decide_eq_true_eq,
        not_exists, not_and]
      rintro pr hpr h1
      exact hdb pr hpr
    simp [dbGetURLsByPath, dbSelectURLs, hfil]
  · have hfind : assocFindSnd p st.paths = none := assocFindSnd_eq_none hdb
    simp [gormGetURLsByPath, hfind]

/-- Witness for C7 at freshly created providers and the path
"never-stored". -/
theorem c7_unknown_path_empty_witness :
    newInMemoryProvider.getURLsByPath "never-stored" = ([], none) ∧
    dbGetURLsByPath dbEmpty "never-stored" = ([], none) ∧
    gormGetURLsByPath dbEmpty .healthy "never-stored" = ([], none) :=
  c7_unknown_path_empty newInMemoryProvider dbEmpty "never-stored" rfl (by simp [dbEmpty])

/-! ## C9 — the GORM provider masks backend failures as empty results -/

/-- C9 (failing evaluation): on a database state that demonstrably holds a
URL for path "p" (second conjunct, healthy backend), the GORM provider's
`GetURLsByPath` with a failing backend returns `([], none)` — an empty
result with a nil error — instead of surfacing a storage error. -/
theorem c9_gorm_lookup_swallows_error :
    gormGetURLsByPath ⟨[(1, "p")], [(1, 1, "https://example.com/a")], 2, 2⟩
        (.down "connection refused") "p" = ([], none) ∧
    gormGetURLsByPath ⟨[(1, "p")], [(1, 1, "https://example.com/a")], 2, 2⟩
        .healthy "p" = ([⟨1, 1, "https://example.com/a"⟩], none) := by
  exact ⟨rfl, by decide⟩

/-! ## C8 — validation errors and persistence -/

/-- C8 (counterexample to the claim as stated): a request mixing one invalid
URL with one valid URL is answered 201 Created — not a client error — even
though a validation error occurred on "ftp://x/y"; the invalid URL is only
reported in the warning list. -/
theorem c8_mixed_request_counterexample :
    (validateURL "ftp://x/y").isSome = true ∧
    handlePostPath ["ftp://x/y", "https://example.com"] =
      ⟨201, some ["https://example.com"], ["ftp://x/y"], true⟩ ∧
    ¬ 400 ≤ (handlePostPath ["ftp://x/y", "https://example.com"]).status := by
  decide

/-- C8 (amended): a URL that fails validation is never passed to the store —
whatever list reaches `StoreURLsForPath` excludes it; a request whose URLs
are all invalid is rejected with a 400 client error without calling the
store; and on the fetch side a URL failing validation performs no network
request and carries the validation error. -/
theorem c8_invalid_never_persisted (urls : List String) (u : String)
    (hu : u ∈ urls) (hbad : validateURL u ≠ none) :
    (∀ stored, (handlePostPath urls).storedCall = some stored → u ∉ stored) ∧
    ((∀ v ∈ urls, validateURL v ≠ none) →
      (handlePostPath urls).status = 400 ∧ (handlePostPath urls).storedCall = none) ∧
    (∀ world, (fetchItem world u).netRequests = 0 ∧ (fetchItem world u).errMsg = validateURL u) := by
  have hne : urls.isEmpty = false := by
    cases urls with
    | nil => cases hu
    | cons a t => rfl
  refine ⟨?_, ?_, ?_⟩
  · intro stored hst
    simp only [handlePostPath, hne, Bool.false_eq_true, if_false] at hst
    by_cases hv : (urls.filter fun v => validateURL v = none).isEmpty
    · rw [if_pos hv] at hst; cases hst
    · rw [if_neg hv] at hst
      cases hst
      intro hmem
      have := (List.mem_filter.mp hmem).2
      simp only [decide_eq_true_eq] at this
      exact hbad this
  · intro hall
    have hv : (urls.filter fun v => validateURL v = none).isEmpty = true := by
      rw [List.isEmpty_iff, List.filter_eq_nil_iff]
      intro v hvmem
      simp only [decide_eq_true_eq]
      exact hall v hvmem
    simp [handlePostPath, hne, hv]
  · intro world
    cases h : validateURL u with
    | none => exact absurd h hbad
    | some e => simp [fetchItem, h]

/-- Witness for C8 at the mixed request of the counterexample. -/
theorem c8_invalid_never_persisted_witness :
    (fetchItem loopWorld "ftp://x/y").netRequests = 0 ∧
    (fetchItem loopWorld "ftp://x/y").errMsg = validateURL "ftp://x/y" :=
  (c8_invalid_never_persisted ["ftp://x/y", "https://example.com"] "ftp://x/y"
    (by decide) (by decide)).2.2 loopWorld

/-! ## C1 — store/replace semantics -/

/-- C1 (counterexample to the claim as stated): on the lib/pq durable
provider's transaction (`postgress_provider.go`, which upserts the path and
bulk-inserts the new rows without deleting the prior ones), storing `L1` then
`L2` for the same path and reading it back returns `L1 ++ L2`, not `L2`. -/
theorem c1_pq_append_counterexample :
    (dbSelectURLs (pqStoreTx (pqStoreTx dbEmpty "p" ["https://a.example/1"]) "p"
        ["https://b.example/2"]) "p").map URLRecord.url
      = ["https://a.example/1", "https://b.example/2"] ∧
    ["https://a.example/1", "https://b.example/2"] ≠ ["https://b.example/2"] := by
  refine ⟨?_, by decide⟩
  have hfil : (pqStoreTx (pqStoreTx dbEmpty "p" ["https://a.example/1"]) "p"
        ["https://b.example/2"]).urls.filter
        (rowMatches (pqStoreTx (pqStoreTx dbEmpty "p" ["https://a.example/1"]) "p"
          ["https://b.example/2"]).paths "p")
      = [(1, 1, "https://a.example/1"), (2, 1, "https://b.example/2")] := by decide
  rw [dbSelectURLs, hfil, mergeSort_of_id_sorted (by decide)]
  rfl

/-! ## C2 — the URL validator -/

theorem containsAux_zero_mask :
    ∀ (ns bs : List Nat), ns.length = bs.length →
      containsAux ns (List.replicate ns.length 0) bs = true := by
  intro ns
  induction ns with
  | nil =>
    intro bs h
    cases bs with
    | nil => rfl
    | cons b bs => cases h
  | cons n ns ih =>
    intro bs h
    cases bs with
    | nil => cases h
    | cons b bs =>
      simp only [List.length_cons, List.replicate_succ, containsAux, Nat.and_zero,
        Bool.and_eq_true, beq_self_eq_true, true_and]
      exact ih bs (by simpa using h)

/-- Refinement direction of C2's range clause: every address in one of the
ranges the spec names is classified private by the code's `isPrivateIP`. -/
theorem specBlocked_isPrivate (ip : List Nat) (hb : ∀ b ∈ ip, b < 256)
    (hs : specBlockedIP ip) : isPrivateIP ip = true := by
  have mem8 : ∀ blk ∈ privateBlocks, cidrContains blk.1 blk.2 ip = true → isPrivateIP ip = true := by
    intro blk hblk hc
    simp only [isPrivateIP, List.any_eq_true]
    exact ⟨blk, hblk, hc⟩
  rcases hs with ⟨b, c, d, rfl⟩ | ⟨b, c, d, rfl⟩ | ⟨b, c, d, rfl, hmask⟩ |
    ⟨c, d, rfl⟩ | ⟨c, d, rfl⟩ | rfl | ⟨b, rest, rfl, hlen, hmask⟩ | ⟨b, rest, rfl, hlen, hmask⟩
  · refine mem8 ([127, 0, 0, 0], 8) (by simp [privateBlocks]) ?_
    simp [cidrContains, ipTo4, containsAux, maskByte, Nat.and_zero]
  · refine mem8 ([10, 0, 0, 0], 8) (by simp [privateBlocks]) ?_
    simp [cidrContains, ipTo4, containsAux, maskByte, Nat.and_zero]
  · refine mem8 ([172, 16, 0, 0], 12) (by simp [privateBlocks]) ?_
    simp [cidrContains, ipTo4, containsAux, maskByte, Nat.and_zero, hmask]
    decide
  · refine mem8 ([192, 168, 0, 0], 16) (by simp [privateBlocks]) ?_
    simp [cidrContains, ipTo4, containsAux, maskByte, Nat.and_zero]
  · refine mem8 ([169, 254, 0, 0], 16) (by simp [privateBlocks]) ?_
    simp [cidrContains, ipTo4, containsAux, maskByte, Nat.and_zero]
  · refine mem8 (List.replicate 15 0 ++ [1], 128) (by simp [privateBlocks]) ?_
    decide
  · refine mem8 (254 :: 128 :: List.replicate 14 0, 10) (by simp [privateBlocks]) ?_
    have hm : (List.range (254 :: 128 :: List.replicate 14 0).length).map (maskByte 10)
        = 255 :: 192 :: List.replicate 14 0 := by decide
    have hip4 : ipTo4 (254 :: b :: rest) = none := by
      simp [ipTo4, List.length_cons, hlen]
    simp only [cidrContains, hip4, hm, containsAux]
    have htail := containsAux_zero_mask (List.replicate 14 0) rest (by simp [hlen])
    simp only [List.length_replicate] at htail
    simp [hmask, Nat.and_zero]
    exact ⟨by decide, htail⟩
  · refine mem8 (252 :: List.replicate 15 0, 7) (by simp [privateBlocks]) ?_
    have hm : (List.range (252 :: List.replicate 15 0).length).map (maskByte 7)
        = 254 :: List.replicate 15 0 := by decide
    have hip4 : ipTo4 (b :: rest) = none := by
      have hb0 : ¬ (b :: rest).take 12 = [0, 0, 0, 0, 0, 0, 0, 0, 0, 0, 255, 255] := by
        intro htk
        rw [List.take_succ_cons] at htk
        have hb00 : b = 0 := ((List.cons.injEq _ _ _ _).mp htk).1
        subst hb00
        simp [Nat.zero_and] at hmask
      simp only [ipTo4, List.length_cons, hlen]
      rw [if_neg (by omega), if_neg (fun h => hb0 h.2)]
    simp only [cidrContains, hip4, hm, containsAux]
    have htail := containsAux_zero_mask (List.replicate 15 0) rest (by simp [hlen])
    simp only [List.length_replicate] at htail
    simp [hmask, Nat.and_zero]
    exact ⟨by decide, htail⟩

/-- C2: the validator rejects the four concrete bad inputs and accepts
"https://example.com"; in general, a URL parsing to a non-http(s) scheme is
rejected, a URL whose hostname is the literal "localhost" is rejected, and a
URL whose hostname is an IP literal in a loopback, link-local, private or
unique-local range is rejected. -/
theorem c2_validate_url :
    (validateURL "http://127.0.0.1/x").isSome = true ∧
    (validateURL "http://localhost/x").isSome = true ∧
    (validateURL "ftp://x/y").isSome = true ∧
    (validateURL "not-a-url").isSome = true ∧
    validateURL "https://example.com" = none ∧
    (∀ s u, goURLParse s = some u → ¬ u.scheme = "http" → ¬ u.scheme = "https" →
      (validateURL s).isSome = true) ∧
    (∀ s u, goURLParse s = some u → hostnameOf u = "localhost" →
      (validateURL s).isSome = true) ∧
    (∀ s u ip, goURLParse s = some u → goParseIP (hostnameOf u) = some ip →
      (∀ b ∈ ip, b < 256) → specBlockedIP ip → (validateURL s).isSome = true) := by
  refine ⟨by decide, by decide, by decide, by decide, by decide, ?_, ?_, ?_⟩
  · intro s u hp h1 h2
    simp only [validateURL, hp]
    rw [if_pos ⟨h1, h2⟩]
    rfl
  · intro s u hp hh
    simp only [validateURL, hp]
    by_cases hsch : ¬ u.scheme = "http" ∧ ¬ u.scheme = "https"
    · rw [if_pos hsch]; rfl
    · rw [if_neg hsch, if_pos (Or.inl hh)]; rfl
  · intro s u ip hp hip hb hs
    simp only [validateURL, hp, hip]
    by_cases hsch : ¬ u.scheme = "http" ∧ ¬ u.scheme = "https"
    · rw [if_pos hsch]; rfl
    · rw [if_neg hsch]
      by_cases hloc : hostnameOf u = "localhost" ∨ hostnameOf u = "127.0.0.1" ∨ hostnameOf u = "::1"
      · rw [if_pos hloc]; rfl
      · rw [if_neg hloc, if_pos (specBlocked_isPrivate ip hb hs)]
        rfl

/-- Witness for C2's general clauses at "http://10.1.2.3/x" (an IP literal in
the private 10.0.0.0/8 range). -/
theorem c2_validate_url_witness :
    (validateURL "http://10.1.2.3/x").isSome = true :=
  c2_validate_url.2.2.2.2.2.2.2 "http://10.1.2.3/x" ⟨"http", "10.1.2.3"⟩ [10, 1, 2, 3]
    (by decide) (by decide) (by decide) (Or.inr (Or.inl ⟨1, 2, 3, rfl⟩))

/-! ## C3 — index-tagged collection is completion-order independent -/

theorem foldl_set_perm {l₁ l₂ : List (Nat × FetchResult)} (h : l₁.Perm l₂) :
    (l₂.map Prod.fst).Nodup →
    ∀ init : List (Option FetchResult),
      l₁.foldl (fun acc m => acc.set m.1 (some m.2)) init
        = l₂.foldl (fun acc m => acc.set m.1 (some m.2)) init := by
  induction h with
  | nil => intro _ init; rfl
  | cons x hperm ih =>
    intro hnd init
    simp only [List.foldl_cons]
    refine ih ?_ _
    simp only [List.map_cons, List.nodup_cons] at hnd
    exact hnd.2
  | swap x y l =>
    intro hnd init
    have hxy : x.1 ≠ y.1 := by
      simp only [List.map_cons, List.nodup_cons, List.mem_cons] at hnd
      exact fun he => hnd.1 (Or.inl he)
    simp only [List.foldl_cons]
    rw [List.set_comm _ _ _ (Ne.symm hxy)]
  | trans h₁ h₂ ih₁ ih₂ =>
    intro hnd init
    rw [ih₁ ((h₂.map Prod.fst).nodup_iff.mpr hnd) init, ih₂ hnd init]

theorem foldl_set_enumFrom (items : List FetchResult) :
    ∀ pre : List (Option FetchResult),
      (items.enumFrom pre.length).foldl (fun acc m => acc.set m.1 (some m.2))
        (pre ++ List.replicate items.length none)
      = pre ++ items.map some := by
  induction items with
  | nil => intro pre; simp
  | cons a t ih =>
    intro pre
    simp only [List.enumFrom, List.length_cons, List.replicate_succ, List.foldl_cons]
    rw [List.set_append_right _ _ (Nat.le_refl pre.length), Nat.sub_self, List.set_cons_zero]
    have h1 := ih (pre ++ [some a])
    simp only [List.length_append, List.length_cons, List.length_nil, List.append_assoc,
      List.singleton_append] at h1
    simpa using h1

theorem collect_enum (items : List FetchResult) :
    collectByIndex items.length items.enum = items.map some := by
  have h := foldl_set_enumFrom items []
  simpa [collectByIndex, List.enum_eq_enumFrom] using h

/-- C3: collecting the index-tagged per-URL results of `handleGetPath` into
the pre-sized result slice yields the results in input order, for EVERY
completion order (any permutation of the tagged result messages): slot `i`
always holds the result of fetching record `i`. -/
theorem c3_results_positionally_aligned (world : String → ServerResp) (urls : List String)
    (msgs : List (Nat × FetchResult))
    (hperm : msgs.Perm ((urls.map (fetchItem world)).enum)) :
    collectByIndex urls.length msgs = (urls.map (fetchItem world)).map some := by
  have hnd : (((urls.map (fetchItem world)).enum).map Prod.fst).Nodup := by
    rw [List.enum_eq_enumFrom, List.enumFrom_map_fst]
    exact List.nodup_range' _ _
  have hlen : urls.length = (urls.map (fetchItem world)).length := (List.length_map _ _).symm
  have h1 := foldl_set_perm hperm hnd
    (List.replicate (urls.map (fetchItem world)).length none)
  have h2 := collect_enum (urls.map (fetchItem world))
  simp only [collectByIndex] at h2 ⊢
  rw [hlen, h1, h2]

/-- Witness for C3: two URLs whose results arrive in reversed completion
order (the fast second URL first) still land in slots [0], [1] in input
order. -/
theorem c3_results_positionally_aligned_witness :
    collectByIndex 2
        [(1, fetchItem slowFastWorld "http://203.0.113.9/fast"),
         (0, fetchItem slowFastWorld "http://203.0.113.1/slow")]
      = [some (fetchItem slowFastWorld "http://203.0.113.1/slow"),
         some (fetchItem slowFastWorld "http://203.0.113.9/fast")] :=
  c3_results_positionally_aligned slowFastWorld
    ["http://203.0.113.1/slow", "http://203.0.113.9/fast"] _ (List.Perm.swap _ _ _)

/-! ## C5 — redirect chains abort after 10 hops -/

theorem followRedirects_loop (world : String → ServerResp)
    (hw : ∀ u, ∃ loc, world u = .redirect loc) :
    ∀ (fuel made : Nat) (url : String), made < 10 → 10 ≤ fuel + made →
      ∃ loc, followRedirects world fuel url made
        = (.error ("Get \x22" ++ loc ++ "\x22: too many redirects"), 10) := by
  intro fuel
  induction fuel with
  | zero => intro made url h1 h2; omega
  | succ fuel ih =>
    intro made url h1 h2
    obtain ⟨loc, hloc⟩ := hw url
    by_cases hm : maxRedirects ≤ made + 1
    · refine ⟨loc, ?_⟩
      have h10 : made + 1 = 10 := by
        simp only [maxRedirects] at hm
        omega
      simp only [followRedirects, redirectStep, hloc]
      rw [if_pos hm]
      simp only [h10]
    · have h1b : made + 1 < 10 := by
        simp only [maxRedirects] at hm
        omega
      obtain ⟨loc2, hrec⟩ := ih (made + 1) loc (by omega) (by omega)
      refine ⟨loc2, ?_⟩
      simp only [followRedirects, redirectStep, hloc]
      rw [if_neg hm]
      exact hrec

/-- C5: against a server that redirects forever, a fetched item fails after
exactly 10 requests with an error whose message ends in
"too many redirects"; the item is otherwise empty (no status, no content).
The closed conjuncts show, in a two-URL batch against a mixed server, that
the failure is recorded only on the looping item: the healthy item succeeds
with its own status. -/
theorem c5_too_many_redirects :
    (∀ (world : String → ServerResp) (url : String), validateURL url = none →
      (∀ u, ∃ loc, world u = .redirect loc) →
      ∃ msg, (fetchItem world url).errMsg = some msg ∧
        (∃ p, msg = p ++ "too many redirects") ∧
        (fetchItem world url).netRequests = 10 ∧
        (fetchItem world url).statusCode = none ∧
        (fetchItem world url).content = none) ∧
    (fetchItem mixedWorld "http://198.51.100.7/loop").errMsg.isSome = true ∧
    (fetchItem mixedWorld "http://198.51.100.9/ok").errMsg = none ∧
    (fetchItem mixedWorld "http://198.51.100.9/ok").statusCode = some 200 := by
  refine ⟨?_, by decide, by decide, by decide⟩
  intro world url hval hw
  obtain ⟨loc, hf⟩ := followRedirects_loop world hw maxRedirects 0 url (by omega)
    (by simp [maxRedirects])
  have hc : clientDo world url = (.error ("Get \x22" ++ loc ++ "\x22: too many redirects"), 10) := hf
  refine ⟨"Get \x22" ++ loc ++ "\x22: too many redirects", ?_, ⟨"Get \x22" ++ loc ++ "\x22: ", ?_⟩, ?_, ?_, ?_⟩
  · simp [fetchItem, hval, hc]
  · have hlit : ("\x22: " ++ "too many redirects" : String) = "\x22: too many redirects" := by decide
    rw [String.append_assoc ("Get \x22" ++ loc) "\x22: " "too many redirects", hlit]
  · simp [fetchItem, hval, hc]
  · simp [fetchItem, hval, hc]
  · simp [fetchItem, hval, hc]

/-- Witness for C5: the always-redirecting server makes a valid public URL
fail with an error after exactly 10 requests. -/
theorem c5_too_many_redirects_witness :
    (fetchItem loopWorld "http://198.51.100.8/x").netRequests = 10 ∧
    (fetchItem loopWorld "http://198.51.100.8/x").errMsg.isSome = true := by
  obtain ⟨msg, h1, h2, h3, h4, h5⟩ := c5_too_many_redirects.1 loopWorld
    "http://198.51.100.8/x" (by decide) (fun u => ⟨_, rfl⟩)
  exact ⟨h3, by simp [h1]⟩

/-! ## C6 — circuit breaker opens after 4 consecutive failures -/

theorem cbExecute_open_fastfail {α : Type} (cb : CircuitBreaker) (now : Nat)
    (backend : Except String α) (hst : cb.state = .opened) (hexp : ¬ cb.expiry < now) :
    cbExecute cb now backend = (cb, .error errOpenState, false) := by
  obtain ⟨st, counts, expiry, gen⟩ := cb
  simp only at hst hexp
  subst hst
  simp only [cbExecute, currentStateUpd]
  rw [if_neg hexp]

theorem retryDoCB_open_fastfail {α : Type} (backend : Except String α) :
    ∀ (ts : List Nat) (t : Nat) (cb : CircuitBreaker), cb.state = .opened →
      (∀ x ∈ t :: ts, ¬ cb.expiry < x) →
      retryDoCB backend cb (t :: ts) = (cb, .error errOpenState, 0) := by
  intro ts
  induction ts with
  | nil =>
    intro t cb hst hx
    have h1 := cbExecute_open_fastfail cb t backend hst (hx t (by simp))
    simp [retryDoCB, h1]
  | cons t2 ts ih =>
    intro t cb hst hx
    have h1 := cbExecute_open_fastfail cb t backend hst (hx t (by simp))
    have h2 := ih t2 cb hst (fun x hxm => hx x (List.mem_cons_of_mem _ hxm))
    simp only [retryDoCB, h1]
    rw [h2]
    simp

/-- C6: after 4 consecutive backend failures (a failing `Store` call of 3
attempts, then a second `Store` call whose first attempt is the 4th failure),
the breaker is open with a cooldown expiring 10 s after the trip; while the
cooldown has not elapsed, every `Lookup` and `Store` call fails immediately
with the breaker-open error and issues 0 backend requests; at the first
instant strictly past the cooldown a probe reaches the backend again. -/
theorem c6_circuit_breaker_fail_fast :
    storeFail1.2.2 = 3 ∧ storeFail1.2.1 = some "connection refused" ∧
    storeFail2.2.2 = 1 ∧ storeFail2.2.1 = some errOpenState ∧
    cbOpen4.state = .opened ∧ cbOpen4.expiry = 4 + cbTimeout ∧
    (∀ (t : Nat) (ts : List Nat) (backend : Except String (List URLRecord)),
      (∀ x ∈ t :: ts, x ≤ 10004) →
      pqGetCall cbOpen4 (t :: ts) backend = (cbOpen4, (none, some errOpenState), 0)) ∧
    (∀ (t : Nat) (ts : List Nat) (backend : Except String Unit),
      (∀ x ∈ t :: ts, x ≤ 10004) →
      pqStoreCall cbOpen4 (t :: ts) backend = (cbOpen4, some errOpenState, 0)) ∧
    (pqGetCall cbOpen4 [10005] (.ok [])).2 = ((some [], none), 1) := by
  have hst : cbOpen4.state = .opened := by decide
  have hexp : cbOpen4.expiry = 10004 := by decide
  refine ⟨by decide, by decide, by decide, by decide, hst, by decide, ?_, ?_, by decide⟩
  · intro t ts backend hx
    have hr := retryDoCB_open_fastfail backend ts t cbOpen4 hst
      (fun x hxm => by rw [hexp]; have := hx x hxm; omega)
    simp [pqGetCall, hr]
  · intro t ts backend hx
    have hr := retryDoCB_open_fastfail backend ts t cbOpen4 hst
      (fun x hxm => by rw [hexp]; have := hx x hxm; omega)
    simp [pqStoreCall, hr]

/-- Witness for C6: a `Lookup` attempted at 5000, 5001, 5002 ms — inside the
cooldown — fails fast with 0 backend requests even though the backend would
succeed. -/
theorem c6_circuit_breaker_fail_fast_witness :
    pqGetCall cbOpen4 [5000, 5001, 5002] (.ok []) = (cbOpen4, (none, some errOpenState), 0) :=
  c6_circuit_breaker_fail_fast.2.2.2.2.2.2.1 5000 [5001, 5002] (.ok []) (by decide)

/-! ## C1 (amended) — replacement semantics per provider -/

theorem dbUpsertPath_of_found {st : DbState} {p : String} {id : Nat}
    (h : assocFindSnd p st.paths = some id) : dbUpsertPath st p = (id, st) := by
  unfold dbUpsertPath
  rw [h]

theorem dbUpsertPath_find (st : DbState) (p : String) :
    assocFindSnd p ((dbUpsertPath st p).2).paths = some (dbUpsertPath st p).1 := by
  unfold dbUpsertPath
  cases h : assocFindSnd p st.paths with
  | some id => simpa using h
  | none =>
    simp only
    rw [assocFindSnd_append_right h]
    simp [assocFindSnd]

theorem dbUpsertPath_mem (st : DbState) (p : String) :
    ((dbUpsertPath st p).1, p) ∈ ((dbUpsertPath st p).2).paths :=
  assocFindSnd_mem (dbUpsertPath_find st p)

theorem dbUpsertPath_urls (st : DbState) (p : String) :
    ((dbUpsertPath st p).2).urls = st.urls := by
  unfold dbUpsertPath
  cases h : assocFindSnd p st.paths <;> simp

theorem dbUpsertPath_nextURLID (st : DbState) (p : String) :
    ((dbUpsertPath st p).2).nextURLID = st.nextURLID := by
  unfold dbUpsertPath
  cases h : assocFindSnd p st.paths <;> simp

theorem dbUpsertPath_nextPathID_ge (st : DbState) (p : String) :
    st.nextPathID ≤ ((dbUpsertPath st p).2).nextPathID := by
  unfold dbUpsertPath
  cases h : assocFindSnd p st.paths <;> simp

theorem dbUpsertPath_id_lt (st : DbState) (p : String)
    (h : ∀ pr ∈ st.paths, pr.1 < st.nextPathID) :
    (dbUpsertPath st p).1 < ((dbUpsertPath st p).2).nextPathID := by
  unfold dbUpsertPath
  cases hf : assocFindSnd p st.paths with
  | some id =>
    simpa using h _ (assocFindSnd_mem hf)
  | none => simp

theorem dbUpsertPath_pathIdsLt (st : DbState) (p : String)
    (h : ∀ pr ∈ st.paths, pr.1 < st.nextPathID) :
    ∀ pr ∈ ((dbUpsertPath st p).2).paths, pr.1 < ((dbUpsertPath st p).2).nextPathID := by
  unfold dbUpsertPath
  cases hf : assocFindSnd p st.paths with
  | some id => simpa using h
  | none =>
    intro pr hpr
    have hpr2 : pr ∈ st.paths ++ [(st.nextPathID, p)] := hpr
    show pr.1 < st.nextPathID + 1
    rcases List.mem_append.mp hpr2 with hpr3 | hpr3
    · have := h pr hpr3
      omega
    · simp only [List.mem_singleton] at hpr3
      subst hpr3
      show st.nextPathID < st.nextPathID + 1
      omega

theorem rowMatches_of_mem {paths : List (Nat × String)} {p : String} {r : Nat × Nat × String}
    (hmem : (r.2.1, p) ∈ paths) : rowMatches paths p r = true := by
  unfold rowMatches
  rw [List.any_eq_true]
  exact ⟨(r.2.1, p), hmem, by simp⟩

/-- Appending a fresh path row (with an id no existing `urls` row can
reference) does not change which old rows join. -/
theorem rowMatches_upsert (st : DbState) (p : String) (r : Nat × Nat × String)
    (href : r.2.1 < st.nextPathID) :
    rowMatches ((dbUpsertPath st p).2).paths p r = rowMatches st.paths p r := by
  unfold dbUpsertPath
  cases hf : assocFindSnd p st.paths with
  | some id => simp
  | none =>
    simp only [rowMatches, List.any_append, List.any_cons, List.any_nil]
    have hne : ¬ st.nextPathID = r.2.1 := by omega
    simp [hne]

theorem filter_not_pathid (id : Nat) (l : List (Nat × Nat × String)) :
    ((l.filter fun row => ¬ row.2.1 = id).filter fun r => r.2.1 = id) = [] := by
  rw [List.filter_eq_nil_iff]
  intro r hr
  have h2 := (List.mem_filter.mp hr).2
  simp only [decide_not, Bool.not_eq_eq_eq_not, Bool.not_true, decide_eq_false_iff_not] at h2
  simp [h2]

theorem filter_mkDbRows (n id : Nat) (L : List String) :
    ((mkDbRows n id L).filter fun r => r.2.1 = id) = mkDbRows n id L := by
  rw [List.filter_eq_self]
  intro r hr
  simp [mkDbRows_pathID n id L r hr]

theorem filter_rowMatches_mkDbRows (paths : List (Nat × String)) (p : String) (n id : Nat)
    (L : List String) (hmem : (id, p) ∈ paths) :
    ((mkDbRows n id L).filter (rowMatches paths p)) = mkDbRows n id L := by
  rw [List.filter_eq_self]
  intro r hr
  exact rowMatches_of_mem (by rw [mkDbRows_pathID n id L r hr]; exact hmem)

theorem mkDbRows_records_url (n id : Nat) (L : List String) :
    ((mkDbRows n id L).map (fun r => (⟨r.1, r.2.1, r.2.2⟩ : URLRecord))).map URLRecord.url = L := by
  rw [List.map_map]
  exact mkDbRows_map_url n id L

theorem gormStore_paths (st : DbState) (p : String) (L : List String) :
    (gormStoreURLsForPath st p L).paths = ((dbUpsertPath st p).2).paths := rfl

theorem gormStore_urls (st : DbState) (p : String) (L : List String) :
    (gormStoreURLsForPath st p L).urls
      = ((dbUpsertPath st p).2).urls.filter (fun row => ¬ row.2.1 = (dbUpsertPath st p).1)
        ++ mkDbRows ((dbUpsertPath st p).2).nextURLID (dbUpsertPath st p).1 L := rfl

/-- The healthy read of the GORM provider once the path row is found. -/
theorem gormGet_healthy (st : DbState) {p : String} {id : Nat}
    (hfind : assocFindSnd p st.paths = some id) :
    gormGetURLsByPath st .healthy p
      = ((st.urls.filter (fun r => r.2.1 = id)).map (fun r => ⟨r.1, r.2.1, r.2.2⟩), none) := by
  unfold gormGetURLsByPath
  rw [hfind]

/-- The GORM provider's delete-then-insert transaction gives replacement:
after two stores for the same path, the healthy read returns exactly the
second list's rows. -/
theorem gorm_store_store_get (st : DbState) (p : String) (L1 L2 : List String) :
    gormGetURLsByPath (gormStoreURLsForPath (gormStoreURLsForPath st p L1) p L2) .healthy p
      = ((mkDbRows ((dbUpsertPath (gormStoreURLsForPath st p L1) p).2).nextURLID
            (dbUpsertPath st p).1 L2).map (fun r => ⟨r.1, r.2.1, r.2.2⟩), none) := by
  have key : dbUpsertPath (gormStoreURLsForPath st p L1) p
      = ((dbUpsertPath st p).1, gormStoreURLsForPath st p L1) := by
    apply dbUpsertPath_of_found
    rw [gormStore_paths]
    exact dbUpsertPath_find st p
  have key1 : (dbUpsertPath (gormStoreURLsForPath st p L1) p).1 = (dbUpsertPath st p).1 := by
    rw [key]
  have hfind2 : assocFindSnd p (gormStoreURLsForPath (gormStoreURLsForPath st p L1) p L2).paths
      = some (dbUpsertPath st p).1 := by
    rw [gormStore_paths, key]
    rw [show ((dbUpsertPath st p).1, gormStoreURLsForPath st p L1).2 = gormStoreURLsForPath st p L1 from rfl]
    rw [gormStore_paths]
    exact dbUpsertPath_find st p
  rw [gormGet_healthy _ hfind2, gormStore_urls, key1]
  rw [show ((dbUpsertPath (gormStoreURLsForPath st p L1) p).2) = gormStoreURLsForPath st p L1 from by rw [key]]
  rw [List.filter_append, filter_not_pathid, filter_mkDbRows, List.nil_append]

/-- The lib/pq provider's transaction appends: after two stores for the same
path, the read returns the prior rows, then `L1`'s rows, then `L2`'s rows. -/
theorem pqStoreTx_paths (st : DbState) (p : String) (L : List String) :
    (pqStoreTx st p L).paths = ((dbUpsertPath st p).2).paths := rfl

theorem pqStoreTx_urls (st : DbState) (p : String) (L : List String) :
    (pqStoreTx st p L).urls
      = ((dbUpsertPath st p).2).urls
        ++ mkDbRows ((dbUpsertPath st p).2).nextURLID (dbUpsertPath st p).1 L := rfl

theorem pqStoreTx_nextURLID (st : DbState) (p : String) (L : List String) :
    (pqStoreTx st p L).nextURLID = ((dbUpsertPath st p).2).nextURLID + L.length := rfl

theorem pq_append_semantics (st : DbState) (p : String) (L1 L2 : List String) (hwf : DbWF st) :
    (dbSelectURLs (pqStoreTx (pqStoreTx st p L1) p L2) p).map URLRecord.url
      = (dbSelectURLs st p).map URLRecord.url ++ L1 ++ L2 := by
  have key : dbUpsertPath (pqStoreTx st p L1) p = ((dbUpsertPath st p).1, pqStoreTx st p L1) := by
    apply dbUpsertPath_of_found
    rw [pqStoreTx_paths]
    exact dbUpsertPath_find st p
  have key1 : (dbUpsertPath (pqStoreTx st p L1) p).1 = (dbUpsertPath st p).1 := by rw [key]
  have key2 : ((dbUpsertPath (pqStoreTx st p L1) p).2) = pqStoreTx st p L1 := by rw [key]
  have hpaths2 : (pqStoreTx (pqStoreTx st p L1) p L2).paths = ((dbUpsertPath st p).2).paths := by
    rw [pqStoreTx_paths, key2, pqStoreTx_paths]
  have hurls2 : (pqStoreTx (pqStoreTx st p L1) p L2).urls
      = st.urls ++ mkDbRows st.nextURLID (dbUpsertPath st p).1 L1
          ++ mkDbRows (st.nextURLID + L1.length) (dbUpsertPath st p).1 L2 := by
    rw [pqStoreTx_urls, key2, key1, pqStoreTx_urls, pqStoreTx_nextURLID,
      dbUpsertPath_urls, dbUpsertPath_nextURLID]
  -- the filtered row set, old rows unchanged, both fresh row groups kept
  have hmem : ((dbUpsertPath st p).1, p) ∈ ((dbUpsertPath st p).2).paths := dbUpsertPath_mem st p
  have hfil : (pqStoreTx (pqStoreTx st p L1) p L2).urls.filter
        (rowMatches (pqStoreTx (pqStoreTx st p L1) p L2).paths p)
      = st.urls.filter (rowMatches st.paths p)
        ++ mkDbRows st.nextURLID (dbUpsertPath st p).1 L1
        ++ mkDbRows (st.nextURLID + L1.length) (dbUpsertPath st p).1 L2 := by
    rw [hurls2, hpaths2, List.filter_append, List.filter_append]
    rw [List.filter_congr (fun r hr => rowMatches_upsert st p r (hwf.pathRefsLt r hr))]
    rw [filter_rowMatches_mkDbRows _ _ _ _ _ hmem, filter_rowMatches_mkDbRows _ _ _ _ _ hmem]
  -- sortedness of all three blocks, in increasing id order
  have hsorted0 : (st.urls.filter (rowMatches st.paths p)).Pairwise (fun a b => a.1 < b.1) :=
    hwf.urlsSorted.sublist (List.filter_sublist _)
  have hb1 := mkDbRows_id_bounds st.nextURLID (dbUpsertPath st p).1 L1
  have hb2 := mkDbRows_id_bounds (st.nextURLID + L1.length) (dbUpsertPath st p).1 L2
  have hsortedAll : (st.urls.filter (rowMatches st.paths p)
        ++ mkDbRows st.nextURLID (dbUpsertPath st p).1 L1
        ++ mkDbRows (st.nextURLID + L1.length) (dbUpsertPath st p).1 L2).Pairwise
        (fun a b => a.1 < b.1) := by
    rw [List.pairwise_append]
    refine ⟨?_, mkDbRows_sorted _ _ _, ?_⟩
    · rw [List.pairwise_append]
      refine ⟨hsorted0, mkDbRows_sorted _ _ _, ?_⟩
      intro a ha b hb
      have ha2 := hwf.urlIdsLt a (List.mem_of_mem_filter ha)
      have := (hb1 b hb).1
      omega
    · intro a ha b hb
      have h2 := (hb2 b hb).1
      rcases List.mem_append.mp ha with ha | ha
      · have := hwf.urlIdsLt a (List.mem_of_mem_filter ha)
        omega
      · have := (hb1 a ha).2
        omega
  unfold dbSelectURLs
  rw [hfil, mergeSort_of_id_sorted hsortedAll,
    mergeSort_of_id_sorted (hwf.urlsSorted.sublist (List.filter_sublist _))]
  simp only [List.map_append]
  rw [mkDbRows_records_url, mkDbRows_records_url]

/-- C1 (amended): for the in-memory provider, `Store(P,L1); Store(P,L2);
Lookup(P)` returns exactly `L2` (order preserved) with a nil error, and
likewise for the GORM durable provider, from any state; the lib/pq durable
provider instead accumulates: from any well-formed database state the same
sequence reads back the prior rows followed by `L1` and then `L2`. -/
theorem c1_store_replace_amended (m : InMemoryProvider) (stg stp : DbState) (p : String)
    (L1 L2 : List String) (hwf : DbWF stp) :
    ((((m.storeURLsForPath p L1).storeURLsForPath p L2).getURLsByPath p).1.map URLRecord.url
        = L2 ∧
      (((m.storeURLsForPath p L1).storeURLsForPath p L2).getURLsByPath p).2 = none) ∧
    ((gormGetURLsByPath (gormStoreURLsForPath (gormStoreURLsForPath stg p L1) p L2)
          .healthy p).1.map URLRecord.url = L2 ∧
      (gormGetURLsByPath (gormStoreURLsForPath (gormStoreURLsForPath stg p L1) p L2)
          .healthy p).2 = none) ∧
    (dbSelectURLs (pqStoreTx (pqStoreTx stp p L1) p L2) p).map URLRecord.url
      = (dbSelectURLs stp p).map URLRecord.url ++ L1 ++ L2 := by
  refine ⟨?_, ⟨?_, ?_⟩, pq_append_semantics stp p L1 L2 hwf⟩
  · cases h : assocFind p m.paths with
    | some id =>
      simp [InMemoryProvider.storeURLsForPath, InMemoryProvider.getURLsByPath, h, assocFind,
        mkMemRecords_map_url]
    | none =>
      simp [InMemoryProvider.storeURLsForPath, InMemoryProvider.getURLsByPath, h, assocFind,
        mkMemRecords_map_url]
  · rw [gorm_store_store_get]
    exact mkDbRows_records_url _ _ _
  · rw [gorm_store_store_get]

/-- Witness for C1 (amended) at empty providers, path "p", lists
["https://a.example/1"] then ["https://b.example/2"]. -/
theorem c1_store_replace_amended_witness :
    (((newInMemoryProvider.storeURLsForPath "p" ["https://a.example/1"]).storeURLsForPath "p"
        ["https://b.example/2"]).getURLsByPath "p").1.map URLRecord.url
      = ["https://b.example/2"] :=
  ((c1_store_replace_amended newInMemoryProvider dbEmpty dbEmpty "p" ["https://a.example/1"]
      ["https://b.example/2"]
      ⟨List.Pairwise.nil, by simp [dbEmpty], by simp [dbEmpty], by simp [dbEmpty]⟩).1).1

end Guardz
